import Mathlib

/-
  Verification of the natural-language specification of the arb example
  program `examples/integrals.c` (rigorous numerical integration demos)
  and of `bool_mat/complement.c`, against a shallow embedding of the code.

  The ball/interval type (`arb`, `acb`) and its arithmetic live outside the
  two source files; the spec treats them as an external, opaque enclosure
  type with exact-conservative operations.  They are modelled here as
  midpoint-radius balls over the rationals, with a finiteness flag playing
  the role of arb's non-finite (nan/inf) values; `prec` arguments are kept
  in the signatures but the model computes exactly, which is one legitimate
  instance of "exact-conservative" arithmetic.
-/

set_option maxHeartbeats 1000000
set_option linter.unusedVariables false

/-- Model of the arb real ball type: a midpoint-radius interval over ℚ.
`finite = false` models a non-finite ball (nan midpoint / infinite radius),
as produced by `arb_indeterminate`. -/
structure Arb where
  mid : ℚ
  rad : ℚ
  finite : Bool
deriving DecidableEq

/-- Model of the acb complex ball type: a pair of real balls. -/
structure Acb where
  re : Arb
  im : Arb
deriving DecidableEq

/-- Modelled from the spec: `acb_is_finite` — both parts have finite
midpoint and radius. -/
def Acb.isFinite (z : Acb) : Bool := z.re.finite && z.im.finite

/-- Modelled from the spec: `acb_indeterminate` sets the whole ball to the
non-finite (nan plus-or-minus inf) ball. -/
def acbIndet : Acb := ⟨⟨0, 0, false⟩, ⟨0, 0, false⟩⟩

/-- Modelled from the spec: the exact zero ball (`acb_zero` / `acb_init`). -/
def acb_zero : Acb := ⟨⟨0, 0, true⟩, ⟨0, 0, true⟩⟩

/-- Modelled from the spec: the exact one ball (`acb_one`). -/
def acb_one : Acb := ⟨⟨1, 0, true⟩, ⟨0, 0, true⟩⟩

/-- Modelled from the spec: the exact imaginary unit ball (`acb_onei`). -/
def acb_onei : Acb := ⟨⟨0, 0, true⟩, ⟨1, 0, true⟩⟩

/-- Modelled from the spec: `arb_contains_zero` — comparison-to-zero test of
the external ball type; a non-finite ball contains everything. -/
def arb_contains_zero (x : Arb) : Bool :=
  !x.finite || (decide (x.mid - x.rad ≤ 0) && decide (0 ≤ x.mid + x.rad))

/-- Modelled from the spec: `arb_is_nonnegative` — every point of the ball
is nonnegative (false for a non-finite ball). -/
def arb_is_nonnegative (x : Arb) : Bool :=
  x.finite && decide (0 ≤ x.mid - x.rad)

/-- Modelled from the spec: `arb_is_negative` — every point of the ball is
negative (false for a non-finite ball). -/
def arb_is_negative (x : Arb) : Bool :=
  x.finite && decide (x.mid + x.rad < 0)

/-- Modelled from the spec: `arb_contains_nonpositive` — some point of the
ball is ≤ 0; a non-finite ball contains everything. -/
def arb_contains_nonpositive (x : Arb) : Bool :=
  !x.finite || decide (x.mid - x.rad ≤ 0)

/-- Modelled from the spec: `arb_contains_int` — some integer lies in the
ball; a non-finite ball contains everything. -/
def arb_contains_int (x : Arb) : Bool :=
  !x.finite || decide (Int.ceil (x.mid - x.rad) ≤ Int.floor (x.mid + x.rad))

/-- Modelled from the spec: `arb_is_zero` — the ball is exactly 0. -/
def arb_is_zero (x : Arb) : Bool :=
  x.finite && decide (x.mid = 0) && decide (x.rad = 0)

/-- Modelled from the spec: `acb_is_real` — the imaginary part is exactly
zero (this is how `acb_is_real` tests realness). -/
def acb_is_real (z : Acb) : Bool := arb_is_zero z.im

/-- Modelled from the spec: exact-conservative real ball addition. -/
def arb_add (x y : Arb) (prec : Int) : Arb :=
  ⟨x.mid + y.mid, x.rad + y.rad, x.finite && y.finite⟩

/-- Modelled from the spec: exact-conservative real ball subtraction. -/
def arb_sub (x y : Arb) (prec : Int) : Arb :=
  ⟨x.mid - y.mid, x.rad + y.rad, x.finite && y.finite⟩

/-- Modelled from the spec: exact real ball negation (`arb_neg`). -/
def arb_neg (x : Arb) : Arb := ⟨-x.mid, x.rad, x.finite⟩

/-- Modelled from the spec: exact-conservative real ball multiplication,
with the standard radius bound |m1| r2 + |m2| r1 + r1 r2. -/
def arb_mul (x y : Arb) (prec : Int) : Arb :=
  ⟨x.mid * y.mid, |x.mid| * y.rad + |y.mid| * x.rad + x.rad * y.rad,
   x.finite && y.finite⟩

/-- Modelled from the spec: `arb_union` — the interval hull of two balls. -/
def arb_union (x y : Arb) (prec : Int) : Arb :=
  let lo := min (x.mid - x.rad) (y.mid - y.rad)
  let hi := max (x.mid + x.rad) (y.mid + y.rad)
  ⟨(lo + hi) / 2, (hi - lo) / 2, x.finite && y.finite⟩

/-- Modelled from the spec: exact-conservative real ball division, as the
hull of the endpoint quotients; a division whose divisor ball meets zero
degrades to a non-finite (indeterminate) ball, which propagates
conservatively. -/
def arb_div (x y : Arb) (prec : Int) : Arb :=
  if x.finite && y.finite && !arb_contains_zero y then
    let l1 := x.mid - x.rad
    let u1 := x.mid + x.rad
    let l2 := y.mid - y.rad
    let u2 := y.mid + y.rad
    let lo := min (min (l1 / l2) (l1 / u2)) (min (u1 / l2) (u1 / u2))
    let hi := max (max (l1 / l2) (l1 / u2)) (max (u1 / l2) (u1 / u2))
    ⟨(lo + hi) / 2, (hi - lo) / 2, true⟩
  else ⟨0, 0, false⟩

/-- Modelled from the spec: `arb_set_round` — exact model: the identity. -/
def arb_set_round (x : Arb) (prec : Int) : Arb := x

/-- Modelled from the spec: `arb_floor` — a conservative enclosure of the
floor function over the ball: the hull of the floors of the endpoints. -/
def arb_floor (x : Arb) (prec : Int) : Arb :=
  if x.finite then
    let lo : ℚ := Int.floor (x.mid - x.rad)
    let hi : ℚ := Int.floor (x.mid + x.rad)
    ⟨(lo + hi) / 2, (hi - lo) / 2, true⟩
  else ⟨0, 0, false⟩

/-- Modelled from the spec: `arb_add_error` — widens the radius by an upper
bound for the magnitude of the error ball, leaving the midpoint unchanged
(this is how the Assembler folds in a caller-supplied tail bound). -/
def arb_add_error (x err : Arb) : Arb :=
  ⟨x.mid, x.rad + (|err.mid| + err.rad), x.finite && err.finite⟩

/-- Modelled from the spec: `arb_add_error_2exp_si` — widens the radius by
2^e, leaving the midpoint unchanged. -/
def arb_add_error_2exp_si (x : Arb) (e : Int) : Arb :=
  ⟨x.mid, x.rad + (2 : ℚ) ^ e, x.finite⟩

/-- Modelled from the spec: `arb_mul_2exp_si` — exact scaling by 2^e. -/
def arb_mul_2exp_si (x : Arb) (e : Int) : Arb :=
  ⟨x.mid * (2 : ℚ) ^ e, x.rad * (2 : ℚ) ^ e, x.finite⟩

/-- Modelled from the spec: `acb_set_round` — exact model: the identity. -/
def acb_set_round (z : Acb) (prec : Int) : Acb := z

/-- Modelled from the spec: `acb_neg` — exact negation. -/
def acb_neg (z : Acb) : Acb := ⟨arb_neg z.re, arb_neg z.im⟩

/-- Modelled from the spec: `acb_neg_round` — exact model: negation. -/
def acb_neg_round (z : Acb) (prec : Int) : Acb := acb_neg z

/-- Modelled from the spec: componentwise complex ball addition. -/
def acb_add (z w : Acb) (prec : Int) : Acb :=
  ⟨arb_add z.re w.re prec, arb_add z.im w.im prec⟩

/-- Modelled from the spec: componentwise complex ball subtraction. -/
def acb_sub (z w : Acb) (prec : Int) : Acb :=
  ⟨arb_sub z.re w.re prec, arb_sub z.im w.im prec⟩

/-- Modelled from the spec: complex ball multiplication via the real ball
operations, (a+bi)(c+di) = (ac-bd) + (ad+bc)i. -/
def acb_mul (z w : Acb) (prec : Int) : Acb :=
  ⟨arb_sub (arb_mul z.re w.re prec) (arb_mul z.im w.im prec) prec,
   arb_add (arb_mul z.re w.im prec) (arb_mul z.im w.re prec) prec⟩

/-- Modelled from the spec: `acb_union` — componentwise hull. -/
def acb_union (z w : Acb) (prec : Int) : Acb :=
  ⟨arb_union z.re w.re prec, arb_union z.im w.im prec⟩

/-- Modelled from the spec: `acb_add_si` — add a machine integer to the
real part. -/
def acb_add_si (z : Acb) (n : Int) (prec : Int) : Acb :=
  ⟨arb_add z.re ⟨(n : ℚ), 0, true⟩ prec, arb_set_round z.im prec⟩

/-- Modelled from the spec: `acb_add_ui` — add a machine integer to the
real part. -/
def acb_add_ui (z : Acb) (n : Int) (prec : Int) : Acb := acb_add_si z n prec

/-- Modelled from the spec: `acb_sub_ui` — subtract a machine integer from
the real part. -/
def acb_sub_ui (z : Acb) (n : Int) (prec : Int) : Acb :=
  ⟨arb_sub z.re ⟨(n : ℚ), 0, true⟩ prec, arb_set_round z.im prec⟩

/-- Modelled from the spec: `acb_mul_ui` — scale both parts by a machine
integer. -/
def acb_mul_ui (z : Acb) (n : Int) (prec : Int) : Acb :=
  ⟨arb_mul z.re ⟨(n : ℚ), 0, true⟩ prec, arb_mul z.im ⟨(n : ℚ), 0, true⟩ prec⟩

/-- Modelled from the spec: complex ball division.  When the divisor is an
exactly-real ball the components are divided by the real ball; otherwise
the usual conj/normSq formula built from the real ball operations is used.
A divisor ball meeting zero degrades to an indeterminate ball. -/
def acb_div (z w : Acb) (prec : Int) : Acb :=
  if arb_is_zero w.im then
    ⟨arb_div z.re w.re prec, arb_div z.im w.re prec⟩
  else
    let d := arb_add (arb_mul w.re w.re prec) (arb_mul w.im w.im prec) prec
    ⟨arb_div (arb_add (arb_mul z.re w.re prec) (arb_mul z.im w.im prec) prec) d prec,
     arb_div (arb_sub (arb_mul z.im w.re prec) (arb_mul z.re w.im prec) prec) d prec⟩

/-- Modelled from the spec: `acb_inv` — reciprocal, 1/z. -/
def acb_inv (z : Acb) (prec : Int) : Acb := acb_div acb_one z prec

/-- Modelled from the spec: `acb_div_ui` — divide both parts by a machine
integer. -/
def acb_div_ui (z : Acb) (n : Int) (prec : Int) : Acb :=
  ⟨arb_div z.re ⟨(n : ℚ), 0, true⟩ prec, arb_div z.im ⟨(n : ℚ), 0, true⟩ prec⟩

/-- Modelled from the spec: `acb_mul_2exp_si` — exact scaling by 2^e. -/
def acb_mul_2exp_si (z : Acb) (e : Int) : Acb :=
  ⟨arb_mul_2exp_si z.re e, arb_mul_2exp_si z.im e⟩

/-- Modelled from the spec: `acb_div_onei` — division by the imaginary
unit, (a+bi)/i = b - ai. -/
def acb_div_onei (z : Acb) : Acb := ⟨z.im, arb_neg z.re⟩

/-- Modelled from the spec: `acb_pow_ui` — a conservative n-th power via
iterated ball multiplication. -/
def acb_pow_ui (z : Acb) (n : Nat) (prec : Int) : Acb :=
  Nat.rec acb_one (fun _ w => acb_mul w z prec) n

/-- Modelled from the spec: `acb_pow_si` — integer powers, with negative
exponents via the reciprocal. -/
def acb_pow_si (z : Acb) (e : Int) (prec : Int) : Acb :=
  if 0 ≤ e then acb_pow_ui z e.toNat prec
  else acb_inv (acb_pow_ui z (-e).toNat prec) prec

/-- Modelled from the spec: `acb_cube` — the third ball power. -/
def acb_cube (z : Acb) (prec : Int) : Acb := acb_mul (acb_mul z z prec) z prec

/-- Modelled from the spec: `acb_submul` — res := res - z*w. -/
def acb_submul (res z w : Acb) (prec : Int) : Acb :=
  acb_sub res (acb_mul z w prec) prec

/-- Modelled from the spec: `acb_const_pi` — a ball enclosing π with exact
zero imaginary part.  The chosen midpoint/radius really contain π. -/
def acb_const_pi (prec : Int) : Acb :=
  ⟨⟨31415925 / 10000000, 5 / 10000000, true⟩, ⟨0, 0, true⟩⟩

/-- Modelled from the spec: `arb_const_e` — a ball enclosing e. -/
def arb_const_e (prec : Int) : Arb := ⟨27182818 / 10000000, 1 / 10000000, true⟩

/-- Modelled from the spec: a generic finite enclosure returned by the
external special-function routines on finite input, and the indeterminate
ball on non-finite input.  The spec consumes these functions only through
the integrand contract, so only normal return, finiteness propagation and
conservative degradation matter to the claims; the numeric value is never
inspected. -/
def acbFinBall (z : Acb) : Acb :=
  if z.isFinite then
    ⟨⟨0, 1 + |z.re.mid| + z.re.rad + |z.im.mid| + z.im.rad, true⟩,
     ⟨0, 1 + |z.re.mid| + z.re.rad + |z.im.mid| + z.im.rad, true⟩⟩
  else acbIndet

/-- Modelled from the spec: `acb_sin` (outside src/), consumed as an
opaque enclosure routine. -/
def acb_sin (z : Acb) (prec : Int) : Acb := acbFinBall z

/-- Modelled from the spec: `acb_exp` (outside src/), consumed as an
opaque enclosure routine. -/
def acb_exp (z : Acb) (prec : Int) : Acb := acbFinBall z

/-- Modelled from the spec: `acb_sqrt` (outside src/), consumed as an
opaque enclosure routine; finite on finite input. -/
def acb_sqrt (z : Acb) (prec : Int) : Acb := acbFinBall z

/-- Modelled from the spec: `acb_zeta` (outside src/), consumed as an
opaque enclosure routine; its value is never inspected by the claims. -/
def acb_zeta (z : Acb) (prec : Int) : Acb := acbFinBall z

/-- Modelled from the spec: `acb_gamma` (outside src/), consumed as an
opaque enclosure routine; its value is never inspected by the claims. -/
def acb_gamma (z : Acb) (prec : Int) : Acb := acbFinBall z

/-- Modelled from the spec: `acb_sech` (outside src/), consumed as an
opaque enclosure routine. -/
def acb_sech (z : Acb) (prec : Int) : Acb := acbFinBall z

/-- Modelled from the spec: `acb_log` (outside src/), consumed as an
opaque enclosure routine; its value is never inspected by the claims. -/
def acb_log (z : Acb) (prec : Int) : Acb := acbFinBall z

/-- Modelled from the spec: `acb_lambertw` (outside src/) with branch
index k and flags, consumed as an opaque enclosure routine. -/
def acb_lambertw (z : Acb) (k : Int) (flags : Int) (prec : Int) : Acb :=
  acbFinBall z

/-- Modelled from the spec: `acb_modular_elliptic_p` (outside src/), the
Weierstrass p-function enclosure, consumed as an opaque routine. -/
def acb_modular_elliptic_p (z tau : Acb) (prec : Int) : Acb := acbFinBall z

/-- Modelled from the spec: `acb_dirichlet_zeta_jet` (outside src/) with
length 2: returns enclosures of (zeta(z), zeta'(z)). -/
def acb_dirichlet_zeta_jet (z : Acb) (prec : Int) : Acb × Acb :=
  (acbFinBall z, acbFinBall z)

/-- Modelled from the spec: `acb_rel_accuracy_bits` (outside src/); it only
feeds the working precision, which the exact model ignores. -/
def acb_rel_accuracy_bits (z : Acb) : Int := 0

/-- Absolute value function on R extended to the half planes, from
`examples/integrals.c` (`acb_holomorphic_abs`).  The C routine writes into
an output buffer `res` whose previous contents it reads in the straddling
branch (`acb_neg(t, res)`), so the embedding takes that previous value
`res0` as an explicit argument; every call inside the program aliases
`res` with `z`. -/
def acb_holomorphic_abs (res0 z : Acb) (holomorphic : Bool) (prec : Int) : Acb :=
  if !z.isFinite || (holomorphic && arb_contains_zero z.re) then
    acbIndet
  else
    if arb_is_nonnegative z.re then
      acb_set_round z prec
    else if arb_is_negative z.re then
      acb_neg_round z prec
    else
      acb_union z (acb_neg res0) prec

/-- Floor function on R extended to vertical strips, from
`examples/integrals.c` (`acb_holomorphic_floor`). -/
def acb_holomorphic_floor (z : Acb) (holomorphic : Bool) (prec : Int) : Acb :=
  if !z.isFinite || (holomorphic && arb_contains_int z.re) then
    acbIndet
  else
    ⟨arb_floor z.re prec, arb_set_round z.im prec⟩

/-- Square root on C with branch cut detection, from `examples/integrals.c`
(`acb_holomorphic_sqrt`). -/
def acb_holomorphic_sqrt (z : Acb) (holomorphic : Bool) (prec : Int) : Acb :=
  if !z.isFinite ||
      (holomorphic && (arb_contains_zero z.im && arb_contains_nonpositive z.re)) then
    acbIndet
  else
    acb_sqrt z prec

/-- The integrand contract: evaluation point, opaque auxiliary parameter
(the slong the C `param` pointer points to; 0 models NULL), order, working
precision; `none` models `flint_abort()`, and a normal return carries the
result enclosure, the C return value and the (possibly updated) value
behind `param`. -/
abbrev Integrand := Acb → Int → Int → Int → Option (Acb × Int × Int)

/-- f(z) = sin(z), from `examples/integrals.c` (`f_sin`). -/
def f_sin : Integrand := fun z param order prec =>
  if 1 < order then none
  else some (acb_sin z prec, 0, param)

/-- f(z) = floor(z), from `examples/integrals.c` (`f_floor`). -/
def f_floor : Integrand := fun z param order prec =>
  if 1 < order then none
  else some (acb_holomorphic_floor z (decide (order ≠ 0)) prec, 0, param)

/-- f(z) = sqrt(1-z^2), from `examples/integrals.c` (`f_circle`). -/
def f_circle : Integrand := fun z param order prec =>
  if 1 < order then none
  else
    let res := acb_submul acb_one z z prec
    let res := acb_holomorphic_sqrt res (decide (order ≠ 0)) prec
    let res := if order = 0 then { res with im := ⟨0, 0, true⟩ } else res
    some (res, 0, param)

/-- f(z) = 1/(1+z^2), from `examples/integrals.c` (`f_atanderiv`). -/
def f_atanderiv : Integrand := fun z param order prec =>
  if 1 < order then none
  else
    let res := acb_mul z z prec
    let res := acb_add_ui res 1 prec
    let res := acb_inv res prec
    some (res, 0, param)

/-- f(z) = sin(z + exp(z)), from `examples/integrals.c` (`f_rump`). -/
def f_rump : Integrand := fun z param order prec =>
  if 1 < order then none
  else
    let res := acb_exp z prec
    let res := acb_add res z prec
    let res := acb_sin res prec
    some (res, 0, param)

/-- f(z) = |z^4+10z^3+19z^2-6z-6| exp(z), from `examples/integrals.c`
(`f_helfgott`); the helper is called with `res` aliased to `z`. -/
def f_helfgott : Integrand := fun z param order prec =>
  if 1 < order then none
  else
    let res := acb_add_si z 10 prec
    let res := acb_mul res z prec
    let res := acb_add_si res 19 prec
    let res := acb_mul res z prec
    let res := acb_add_si res (-6) prec
    let res := acb_mul res z prec
    let res := acb_add_si res (-6) prec
    let res := acb_holomorphic_abs res res (decide (order ≠ 0)) prec
    let res :=
      if res.isFinite then acb_mul res (acb_exp z prec) prec else res
    some (res, 0, param)

/-- f(z) = zeta(z), from `examples/integrals.c` (`f_zeta`). -/
def f_zeta : Integrand := fun z param order prec =>
  if 1 < order then none
  else some (acb_zeta z prec, 0, param)

/-- f(z) = z sin(1/z) on a real interval, from `examples/integrals.c`
(`f_essing2`); across the essential singularity it substitutes the fixed
enclosure 0 plus-or-minus 1 before the final multiplication by z. -/
def f_essing2 : Integrand := fun z param order prec =>
  if 1 < order then none
  else
    let res :=
      if order = 0 && acb_is_real z && arb_contains_zero z.re then
        (⟨⟨0, 1, true⟩, ⟨0, 0, true⟩⟩ : Acb)
      else
        acb_sin (acb_inv z prec) prec
    some (acb_mul res z prec, 0, param)

/-- f(z) = sin(1/z) on a real interval, from `examples/integrals.c`
(`f_essing`). -/
def f_essing : Integrand := fun z param order prec =>
  if 1 < order then none
  else
    let res :=
      if order = 0 && acb_is_real z && arb_contains_zero z.re then
        (⟨⟨0, 1, true⟩, ⟨0, 0, true⟩⟩ : Acb)
      else
        acb_sin (acb_inv z prec) prec
    some (res, 0, param)

/-- f(z) = exp(-z) z^1000, from `examples/integrals.c`
(`f_factorial1000`). -/
def f_factorial1000 : Integrand := fun z param order prec =>
  if 1 < order then none
  else
    let t := acb_pow_ui z 1000 prec
    let res := acb_exp (acb_neg z) prec
    some (acb_mul res t prec, 0, param)

/-- f(z) = gamma(z), from `examples/integrals.c` (`f_gamma`). -/
def f_gamma : Integrand := fun z param order prec =>
  if 1 < order then none
  else some (acb_gamma z prec, 0, param)

/-- f(z) = sin(z) + exp(-200-z^2), from `examples/integrals.c`
(`f_sin_plus_small`). -/
def f_sin_plus_small : Integrand := fun z param order prec =>
  if 1 < order then none
  else
    let t := acb_mul z z prec
    let t := acb_add_ui t 200 prec
    let t := acb_exp (acb_neg t) prec
    let res := acb_sin z prec
    some (acb_add res t prec, 0, param)

/-- f(z) = exp(z), from `examples/integrals.c` (`f_exp`). -/
def f_exp : Integrand := fun z param order prec =>
  if 1 < order then none
  else some (acb_exp z prec, 0, param)

/-- f(z) = exp(-z^2), from `examples/integrals.c` (`f_gaussian`). -/
def f_gaussian : Integrand := fun z param order prec =>
  if 1 < order then none
  else
    let res := acb_mul z z prec
    some (acb_exp (acb_neg res) prec, 0, param)

/-- f(z) = (exp(z) - floor(exp(z))) sin(z + exp(z)), from
`examples/integrals.c` (`f_monster`); on a non-finite floor enclosure the
remaining arithmetic is skipped and the enclosure propagates. -/
def f_monster : Integrand := fun z param order prec =>
  if 1 < order then none
  else
    let t := acb_exp z prec
    let res := acb_holomorphic_floor t (decide (order ≠ 0)) prec
    let res :=
      if res.isFinite then
        acb_mul (acb_sub t res prec) (acb_sin (acb_add t z prec) prec) prec
      else res
    some (res, 0, param)

/-- f(z) = sech(10(x-0.2))^2 + sech(100(x-0.4))^4 + sech(1000(x-0.6))^6,
from `examples/integrals.c` (`f_wolfram`). -/
def f_wolfram : Integrand := fun z param order prec =>
  if 1 < order then none
  else
    let a := acb_pow_ui (acb_sech (acb_sub_ui (acb_mul_ui z 10 prec) 2 prec) prec) 2 prec
    let b := acb_pow_ui (acb_sech (acb_sub_ui (acb_mul_ui z 100 prec) 40 prec) prec) 4 prec
    let c := acb_pow_ui (acb_sech (acb_sub_ui (acb_mul_ui z 1000 prec) 600 prec) prec) 6 prec
    some (acb_add (acb_add a b prec) c prec, 0, param)

/-- f(z) = sech(z), from `examples/integrals.c` (`f_sech`). -/
def f_sech : Integrand := fun z param order prec =>
  if 1 < order then none
  else some (acb_sech z prec, 0, param)

/-- f(z) = sech^3(z), from `examples/integrals.c` (`f_sech3`). -/
def f_sech3 : Integrand := fun z param order prec =>
  if 1 < order then none
  else some (acb_cube (acb_sech z prec) prec, 0, param)

/-- f(z) = -log(z)/(1+z), from `examples/integrals.c` (`f_log_div1p`). -/
def f_log_div1p : Integrand := fun z param order prec =>
  if 1 < order then none
  else
    let t := acb_add_ui z 1 prec
    let res := acb_log z prec
    some (acb_neg (acb_div res t prec), 0, param)

/-- f(z) = z exp(-z)/(1+exp(-z)), from `examples/integrals.c`
(`f_log_div1p_transformed`). -/
def f_log_div1p_transformed : Integrand := fun z param order prec =>
  if 1 < order then none
  else
    let t := acb_exp (acb_neg z) prec
    let res := acb_add_ui t 1 prec
    let res := acb_div t res prec
    some (acb_mul res z prec, 0, param)

/-- f(z) = wp(z; tau=i) z^(-n-1) where n is read through the opaque
parameter, from `examples/integrals.c` (`f_elliptic_p_laurent_n`); the
parameter is read, never written. -/
def f_elliptic_p_laurent_n : Integrand := fun z param order prec =>
  if 1 < order then none
  else
    let n := param
    let tau := acb_onei
    let res := acb_modular_elliptic_p z tau prec
    let tau := acb_pow_si z (-n - 1) prec
    some (acb_mul res tau prec, 0, param)

/-- f(z) = zeta'(z)/zeta(z), from `examples/integrals.c`
(`f_zeta_frac`). -/
def f_zeta_frac : Integrand := fun z param order prec =>
  if 1 < order then none
  else
    let t := acb_dirichlet_zeta_jet z prec
    some (acb_div t.2 t.1 prec, 0, param)

/-- f(z) = W_0(z) with branch cut detection, from `examples/integrals.c`
(`f_lambertw`). -/
def f_lambertw : Integrand := fun z param order prec =>
  if 1 < order then none
  else
    let prec2 := min prec (acb_rel_accuracy_bits z + 10)
    let t : Acb := acb_zero
    let t :=
      if order ≠ 0 then
        let t1 : Acb := ⟨arb_const_e prec2, t.im⟩
        let t1 := acb_inv t1 prec2
        let t1 := acb_add t1 z prec2
        if arb_contains_zero t1.im && arb_contains_nonpositive t1.re then
          acbIndet
        else t1
      else t
    let res :=
      if t.isFinite then acb_lambertw z 0 0 prec2 else acbIndet
    some (res, 0, param)

/-- The example integrand catalogue of `examples/integrals.c`: the 23
distinct integrand functions used by the 24 catalogue entries. -/
def integrands : List Integrand :=
  [f_sin, f_floor, f_circle, f_atanderiv, f_rump, f_helfgott, f_zeta,
   f_essing2, f_essing, f_factorial1000, f_gamma, f_sin_plus_small, f_exp,
   f_gaussian, f_monster, f_wolfram, f_sech, f_sech3, f_log_div1p,
   f_log_div1p_transformed, f_elliptic_p_laurent_n, f_zeta_frac, f_lambertw]

/-- The catalogue of integral descriptions printed by `main`
(`descr` in `examples/integrals.c`). -/
def descr : List String :=
  ["int_0^100 sin(x) dx",
   "4 int_0^1 1/(1+x^2) dx",
   "2 int_0^\x7binf\x7d 1/(1+x^2) dx   (using domain truncation)",
   "4 int_0^1 sqrt(1-x^2) dx",
   "int_0^8 sin(x+exp(x)) dx",
   "int_0^100 floor(x) dx",
   "int_0^1 |x^4+10x^3+19x^2-6x-6| exp(x) dx",
   "1/(2 pi i) int zeta(s) ds  (closed path around s = 1)",
   "int_0^1 sin(1/x) dx  (slow convergence, use -heap and/or -tol)",
   "int_0^1 x sin(1/x) dx  (slow convergence, use -heap and/or -tol)",
   "int_0^10000 x^1000 exp(-x) dx",
   "int_1^\x7b1+1000i\x7d gamma(x) dx",
   "int_\x7b-10\x7d^\x7b10\x7d sin(x) + exp(-200-x^2) dx",
   "int_\x7b-1020\x7d^\x7b-1010\x7d exp(x) dx  (use -tol 0 for relative error)",
   "int_0^\x7binf\x7d exp(-x^2) dx   (using domain truncation)",
   "int_0^1 sech(10(x-0.2))^2 + sech(100(x-0.4))^4 + sech(1000(x-0.6))^6 dx",
   "int_0^8 (exp(x)-floor(exp(x))) sin(x+exp(x)) dx  (use higher -eval)",
   "int_0^\x7binf\x7d sech(x) dx   (using domain truncation)",
   "int_0^\x7binf\x7d sech^3(x) dx   (using domain truncation)",
   "int_0^1 -log(x)/(1+x) dx   (using domain truncation)",
   "int_0^\x7binf\x7d x exp(-x)/(1+exp(-x)) dx   (using domain truncation)",
   "int_C wp(x)/x^(11) dx   (contour for 10th Laurent coefficient of Weierstrass p-function)",
   "N(1000) = count zeros with 0 < t <= 1000 of zeta(s) using argument principle",
   "int_0^\x7b1000\x7d W_0(x) dx"]

/-- Digit-accumulating loop of the C library function `atol` (modelled
from its standard semantics; `atol` is libc, not repository code). -/
def atolDigits : List Char → Int → Int
  | [], acc => acc
  | c :: cs, acc =>
      if c.isDigit then atolDigits cs (10 * acc + ((c.toNat : Int) - 48))
      else acc

/-- Model of the C library function `atol`: skip leading whitespace, read
an optional sign, then a digit run; 0 when no digits are present. -/
def atol (s : String) : Int :=
  match s.toList.dropWhile Char.isWhitespace with
  | '-' :: rest => -(atolDigits rest 0)
  | '+' :: rest => atolDigits rest 0
  | cs => atolDigits cs 0

/-- Outcome of the integral-selection phase of `main`: the usage branch
(printing the catalogue and returning the given exit status), a
`flint_abort()`, or a run over the selected range. -/
inductive SelectOutcome where
  | usage (catalogue : List String) (status : Int)
  | abort
  | run (ifrom ito : Int)
deriving DecidableEq

/-- The first argv scan of `main` in `examples/integrals.c`: visits each
position; at "-i" it inspects the following argument ("all" selects the
whole range; otherwise the `atol` value, and an index outside 0..23 calls
`flint_abort()`, modelled as `none`).  Reading past the end of argv (C
would dereference the NULL sentinel) is modelled as the empty string. -/
def selectScan : List String → Int × Int → Option (Int × Int)
  | [], st => some st
  | a :: rest, st =>
      if a = "-i" then
        let nxt := rest.headD ""
        if nxt = "all" then selectScan rest (0, 23)
        else
          let v := atol nxt
          if v < 0 || 24 ≤ v then none
          else selectScan rest (v, v)
      else selectScan rest st

/-- The integral-selection logic of `main`: scan argv (past the program
name) with `ifrom = ito = -1` initially; abort propagates; if no "-i" set
a selection, print the usage text and the catalogue and exit with
status 1. -/
def parseSelect (args : List String) : SelectOutcome :=
  match selectScan args.tail (-1, -1) with
  | none => SelectOutcome.abort
  | some (ifrom, ito) =>
      if ifrom = -1 then SelectOutcome.usage descr 1
      else SelectOutcome.run ifrom ito

/-- The closed-contour assembly of integral 7 in `main`: sum the four
oriented edge integrals of zeta around the rectangle, then divide by pi,
halve, and divide by i (total division by 2 pi i). -/
def case7_assemble (i1 i2 i3 i4 : Acb) (prec : Int) : Acb :=
  let s := acb_zero
  let s := acb_add s i1 prec
  let s := acb_add s i2 prec
  let s := acb_add s i3 prec
  let s := acb_add s i4 prec
  let t := acb_const_pi prec
  let s := acb_div s t prec
  let s := acb_mul_2exp_si s (-1)
  acb_div_onei s

/-- Tail-bound step of integral 2 in `main`: widen the real part of the
truncated-integral enclosure by 2^(-goal). -/
def case2_tail (s : Acb) (goal : Int) : Acb :=
  { s with re := arb_add_error_2exp_si s.re (-goal) }

/-- Full post-processing of integral 2 in `main`: the tail-bound step
followed by the doubling of the symmetric half-line integral. -/
def case2_finish (s : Acb) (goal : Int) : Acb :=
  acb_mul_2exp_si (case2_tail s goal) 1

/-- Tail bound of integral 14 in `main`: exp(-b^2) at the truncation
point b. -/
def case14_tailball (b : Acb) (prec : Int) : Acb :=
  acb_exp (acb_neg (acb_mul b b prec)) prec

/-- Post-processing of integral 14 in `main`: widen the real part by the
tail bound exp(-b^2). -/
def case14_finish (s b : Acb) (prec : Int) : Acb :=
  { s with re := arb_add_error s.re (case14_tailball b prec).re }

/-- Tail bound of integral 17 in `main`: 2 exp(-b). -/
def case17_tailball (b : Acb) (prec : Int) : Acb :=
  acb_mul_2exp_si (acb_exp (acb_neg b) prec) 1

/-- Post-processing of integral 17 in `main`: widen the real part by the
tail bound 2 exp(-b). -/
def case17_finish (s b : Acb) (prec : Int) : Acb :=
  { s with re := arb_add_error s.re (case17_tailball b prec).re }

/-- Tail bound of integral 18 in `main`: (8/3) exp(-3b). -/
def case18_tailball (b : Acb) (prec : Int) : Acb :=
  acb_div_ui (acb_mul_2exp_si (acb_exp (acb_mul_ui (acb_neg b) 3 prec) prec) 3) 3 prec

/-- Post-processing of integral 18 in `main`: widen the real part by the
tail bound (8/3) exp(-3b). -/
def case18_finish (s b : Acb) (prec : Int) : Acb :=
  { s with re := arb_add_error s.re (case18_tailball b prec).re }

/-- Tail bound of integral 19 in `main`: (N+1) 2^(-N). -/
def case19_tailball (n : Int) : Acb :=
  acb_mul_2exp_si ⟨⟨((n + 1 : Int) : ℚ), 0, true⟩, ⟨0, 0, true⟩⟩ (-n)

/-- Post-processing of integral 19 in `main`: widen the real part by the
tail bound (N+1) 2^(-N). -/
def case19_finish (s : Acb) (n : Int) : Acb :=
  { s with re := arb_add_error s.re (case19_tailball n).re }

/-- Tail bound of integral 20 in `main`: (N+1) exp(-N), computed from the
ball b still holding the truncation point N. -/
def case20_tailball (b : Acb) (n : Int) (prec : Int) : Acb :=
  acb_mul_ui (acb_exp (acb_neg b) prec) (n + 1) prec

/-- Post-processing of integral 20 in `main`: widen the real part by the
tail bound (N+1) exp(-N). -/
def case20_finish (s b : Acb) (n : Int) (prec : Int) : Acb :=
  { s with re := arb_add_error s.re (case20_tailball b n prec).re }

/-- One probe of the integrand of integral 21 as the engine would perform
it: the value behind the `param` pointer after a call, starting from p
(an aborting call leaves it untouched). -/
def case21_probe (p : Int) (probe : Acb × Int × Int) : Int :=
  match f_elliptic_p_laurent_n probe.1 p probe.2.1 probe.2.2 with
  | some r => r.2.2
  | none => p

/-- The value behind `&N` after the four edge integrations of integral 21
in `main`, for an arbitrary sequence of integrand probes; N starts at
10. -/
def case21_paramAfter (probes : List (Acb × Int × Int)) : Int :=
  probes.foldl case21_probe 10

/-- Model of the `bool_mat_t` matrix of booleans: dimensions plus an
entry function (entries outside the dimensions are irrelevant). -/
structure bool_mat where
  nrows : Nat
  ncols : Nat
  entries : Nat → Nat → Bool

/-- Accessor `bool_mat_is_empty` (outside src/): a matrix with zero rows
or zero columns is empty. -/
def bool_mat_is_empty (m : bool_mat) : Bool :=
  decide (m.nrows = 0) || decide (m.ncols = 0)

/-- Accessor `bool_mat_get_entry` (outside src/). -/
def bool_mat_get_entry (m : bool_mat) (i j : Nat) : Bool := m.entries i j

/-- `bool_mat_complement` from `bool_mat/complement.c`: early return
leaving `dest` untouched when `src` is empty, otherwise every entry in
src's index range is set to the negation of the corresponding src
entry. -/
def bool_mat_complement (dest src : bool_mat) : bool_mat :=
  if bool_mat_is_empty src then dest
  else
    { dest with
      entries := fun i j =>
        if i < src.nrows ∧ j < src.ncols then !bool_mat_get_entry src i j
        else dest.entries i j }

/-- Containment semantics of the ball model: a finite ball contains the
reals within radius of its midpoint; a non-finite ball contains every
real (nan plus-or-minus inf is conservative). -/
def Arb.memR (a : Arb) (x : ℝ) : Prop :=
  a.finite = true → ((a.mid : ℝ) - (a.rad : ℝ) ≤ x ∧ x ≤ (a.mid : ℝ) + (a.rad : ℝ))

/-- Containment semantics for complex balls: componentwise. -/
def Acb.containsC (z : Acb) (w : ℂ) : Prop :=
  z.re.memR w.re ∧ z.im.memR w.im

lemma memR_mk {m r : ℚ} {f : Bool} {x : ℝ} :
    (Arb.mk m r f).memR x ↔ (f = true → ((m : ℝ) - r ≤ x ∧ x ≤ (m : ℝ) + r)) := by
  rfl

lemma arb_add_memR {x y : Arb} {v w : ℝ} (hx : x.memR v) (hy : y.memR w)
    (prec : Int) : (arb_add x y prec).memR (v + w) := by
  intro h
  simp only [arb_add, Bool.and_eq_true] at h
  obtain ⟨h1, h2⟩ := hx h.1
  obtain ⟨h3, h4⟩ := hy h.2
  simp only [arb_add]
  push_cast
  constructor <;> linarith

lemma arb_neg_memR {x : Arb} {v : ℝ} (hx : x.memR v) :
    (arb_neg x).memR (-v) := by
  intro h
  simp only [arb_neg] at h
  obtain ⟨h1, h2⟩ := hx h
  simp only [arb_neg]
  push_cast
  constructor <;> linarith

lemma arb_mul_2exp_memR {x : Arb} {v : ℝ} (hx : x.memR v) (e : Int) :
    (arb_mul_2exp_si x e).memR (v * (2 : ℝ) ^ e) := by
  intro h
  simp only [arb_mul_2exp_si] at h
  obtain ⟨h1, h2⟩ := hx h
  have hp : (0 : ℝ) < (2 : ℝ) ^ e := zpow_pos (by norm_num) e
  simp only [arb_mul_2exp_si]
  push_cast
  constructor <;> nlinarith

lemma arb_div_pos_memR {x y : Arb} {v w : ℝ} (hx : x.memR v) (hy : y.memR w)
    (hyf : y.finite = true) (hpos : 0 < y.mid - y.rad) (prec : Int) :
    (arb_div x y prec).memR (v / w) := by
  by_cases hxf : x.finite = true
  · obtain ⟨hv1, hv2⟩ := hx hxf
    obtain ⟨hw1, hw2⟩ := hy hyf
    have hL2 : (0 : ℝ) < (y.mid : ℝ) - y.rad := by exact_mod_cast hpos
    have hw0 : 0 < w := lt_of_lt_of_le hL2 hw1
    have hU2 : (0 : ℝ) < (y.mid : ℝ) + y.rad := lt_of_lt_of_le hw0 hw2
    have hcz : arb_contains_zero y = false := by
      simp only [arb_contains_zero, hyf, Bool.not_true, Bool.false_or,
        Bool.and_eq_false_iff, decide_eq_false_iff_not, not_le]
      left; exact hpos
    simp only [arb_div, hxf, hyf, hcz, Bool.not_false, Bool.and_true,
      Bool.true_and, if_true]
    intro _
    have key₁ : ((min (min ((x.mid - x.rad) / (y.mid - y.rad)) ((x.mid - x.rad) / (y.mid + y.rad)))
        (min ((x.mid + x.rad) / (y.mid - y.rad)) ((x.mid + x.rad) / (y.mid + y.rad))) : ℚ) : ℝ) ≤ v / w := by
      push_cast
      have hstep : ((x.mid : ℝ) - x.rad) / w ≤ v / w :=
        (div_le_div_iff_of_pos_right hw0).mpr hv1
      refine le_trans (le_trans (min_le_left _ _) ?_) hstep
      rcases le_or_lt 0 ((x.mid : ℝ) - x.rad) with hL1 | hL1
      · refine le_trans (min_le_right _ _) ?_
        rw [div_le_div_iff₀ hU2 hw0]
        exact mul_le_mul_of_nonneg_left hw2 hL1
      · refine le_trans (min_le_left _ _) ?_
        rw [div_le_div_iff₀ hL2 hw0]
        exact mul_le_mul_of_nonpos_left hw1 (le_of_lt hL1)
    have key₂ : v / w ≤ ((max (max ((x.mid - x.rad) / (y.mid - y.rad)) ((x.mid - x.rad) / (y.mid + y.rad)))
        (max ((x.mid + x.rad) / (y.mid - y.rad)) ((x.mid + x.rad) / (y.mid + y.rad))) : ℚ) : ℝ) := by
      push_cast
      have hstep : v / w ≤ ((x.mid : ℝ) + x.rad) / w :=
        (div_le_div_iff_of_pos_right hw0).mpr hv2
      refine le_trans hstep (le_trans ?_ (le_max_right _ _))
      rcases le_or_lt 0 ((x.mid : ℝ) + x.rad) with hU1 | hU1
      · refine le_trans ?_ (le_max_left _ _)
        rw [div_le_div_iff₀ hw0 hL2]
        exact mul_le_mul_of_nonneg_left hw1 hU1
      · refine le_trans ?_ (le_max_right _ _)
        rw [div_le_div_iff₀ hw0 hU2]
        exact mul_le_mul_of_nonpos_left hw2 (le_of_lt hU1)
    constructor
    · push_cast at key₁ ⊢
      nlinarith [key₁]
    · push_cast at key₂ ⊢
      nlinarith [key₂]
  · have : x.finite = false := by
      cases hx' : x.finite
      · rfl
      · exact absurd hx' hxf
    simp only [arb_div, this, Bool.false_and, Bool.if_false_left]
    intro hcontra
    simp at hcontra

lemma acb_add_containsC {z w : Acb} {a b : ℂ} (hz : z.containsC a)
    (hw : w.containsC b) (prec : Int) :
    (acb_add z w prec).containsC (a + b) := by
  refine ⟨?_, ?_⟩
  · simpa [Complex.add_re] using arb_add_memR hz.1 hw.1 prec
  · simpa [Complex.add_im] using arb_add_memR hz.2 hw.2 prec

lemma acb_zero_containsC : acb_zero.containsC 0 := by
  constructor <;> · intro _; simp [acb_zero]

lemma acb_div_real_containsC {z t : Acb} {a : ℂ} {c : ℝ} (hz : z.containsC a)
    (him : t.im = ⟨0, 0, true⟩) (hre : t.re.memR c) (htf : t.re.finite = true)
    (hpos : 0 < t.re.mid - t.re.rad) (prec : Int) :
    (acb_div z t prec).containsC (a / (c : ℂ)) := by
  have hposR : (0 : ℝ) < (t.re.mid : ℝ) - t.re.rad := by exact_mod_cast hpos
  have hc0 : 0 < c := lt_of_lt_of_le hposR (hre htf).1
  have hzim : arb_is_zero t.im = true := by simp [arb_is_zero, him]
  have hdre : (a / (c : ℂ)).re = a.re / c := by
    field_simp [Complex.div_re, Complex.normSq_apply]
    ring
  have hdim : (a / (c : ℂ)).im = a.im / c := by
    field_simp [Complex.div_im, Complex.normSq_apply]
    ring
  refine ⟨?_, ?_⟩
  · simp only [acb_div, hzim, if_true, hdre]
    exact arb_div_pos_memR hz.1 hre htf hpos prec
  · simp only [acb_div, hzim, if_true, hdim]
    exact arb_div_pos_memR hz.2 hre htf hpos prec

lemma acb_mul_2exp_containsC {z : Acb} {a : ℂ} (hz : z.containsC a) (e : Int) :
    (acb_mul_2exp_si z e).containsC (a * (2 : ℂ) ^ e) := by
  have h2 : ((2 : ℂ) ^ e) = (((2 : ℝ) ^ e : ℝ) : ℂ) := by push_cast; ring
  have hre2 : ((2 : ℂ) ^ e).re = (2 : ℝ) ^ e := by rw [h2, Complex.ofReal_re]
  have him2 : ((2 : ℂ) ^ e).im = 0 := by rw [h2, Complex.ofReal_im]
  refine ⟨?_, ?_⟩
  · have : (a * (2 : ℂ) ^ e).re = a.re * (2 : ℝ) ^ e := by
      rw [Complex.mul_re, hre2, him2]; ring
    rw [this]
    exact arb_mul_2exp_memR hz.1 e
  · have : (a * (2 : ℂ) ^ e).im = a.im * (2 : ℝ) ^ e := by
      rw [Complex.mul_im, hre2, him2]; ring
    rw [this]
    exact arb_mul_2exp_memR hz.2 e

lemma acb_div_onei_containsC {z : Acb} {a : ℂ} (hz : z.containsC a) :
    (acb_div_onei z).containsC (a / Complex.I) := by
  have hre : (a / Complex.I).re = a.im := by
    simp [Complex.div_I, Complex.mul_re]
  have him : (a / Complex.I).im = -a.re := by
    simp [Complex.div_I, Complex.mul_im]
  exact ⟨by rw [hre]; exact hz.2, by rw [him]; exact arb_neg_memR hz.1⟩

lemma pi_mem_const_pi (prec : Int) : (acb_const_pi prec).re.memR Real.pi := by
  intro _
  simp only [acb_const_pi]
  push_cast
  constructor
  · nlinarith [Real.pi_gt_d6]
  · nlinarith [Real.pi_lt_d6]

lemma acb_mul_isFinite (z w : Acb) (prec : Int) :
    (acb_mul z w prec).isFinite = (z.isFinite && w.isFinite) := by
  cases ha : z.re.finite <;> cases hb : z.im.finite <;>
    cases hc : w.re.finite <;> cases hd : w.im.finite <;>
      simp [acb_mul, Acb.isFinite, arb_mul, arb_add, arb_sub, ha, hb, hc, hd]

lemma acb_add_si_isFinite (z : Acb) (n prec : Int) :
    (acb_add_si z n prec).isFinite = z.isFinite := by
  simp [acb_add_si, Acb.isFinite, arb_add, arb_set_round]

lemma bool_mat_complement_nrows (d s : bool_mat) :
    (bool_mat_complement d s).nrows = d.nrows := by
  unfold bool_mat_complement; split <;> rfl

lemma bool_mat_complement_ncols (d s : bool_mat) :
    (bool_mat_complement d s).ncols = d.ncols := by
  unfold bool_mat_complement; split <;> rfl

/-- Claim C10: `bool_mat_complement` negates every entry of dest in src's
index range for a non-empty src (the range condition already forces
non-emptiness), returns immediately leaving dest untouched when src is
empty, and composing it twice through a same-shape intermediate restores
the original matrix entrywise. -/
theorem claim_C10 :
    (∀ dest src : bool_mat, bool_mat_is_empty src = true →
        bool_mat_complement dest src = dest)
    ∧ (∀ dest src : bool_mat, ∀ i j : Nat, i < src.nrows → j < src.ncols →
        (bool_mat_complement dest src).entries i j = !src.entries i j)
    ∧ (∀ m t d : bool_mat, t.nrows = m.nrows → t.ncols = m.ncols →
        ∀ i j : Nat, i < m.nrows → j < m.ncols →
        (bool_mat_complement d (bool_mat_complement t m)).entries i j
          = m.entries i j) := by
  have hentry : ∀ dest src : bool_mat, ∀ i j : Nat,
      i < src.nrows → j < src.ncols →
      (bool_mat_complement dest src).entries i j = !src.entries i j := by
    intro dest src i j hi hj
    have hne : bool_mat_is_empty src = false := by
      simp only [bool_mat_is_empty, Bool.or_eq_false_iff,
        decide_eq_false_iff_not]
      omega
    simp [bool_mat_complement, hne, bool_mat_get_entry, hi, hj]
  refine ⟨?_, hentry, ?_⟩
  · intro dest src h
    simp [bool_mat_complement, h]
  · intro m t d htr htc i j hi hj
    have hi' : i < (bool_mat_complement t m).nrows := by
      rw [bool_mat_complement_nrows, htr]; exact hi
    have hj' : j < (bool_mat_complement t m).ncols := by
      rw [bool_mat_complement_ncols, htc]; exact hj
    rw [hentry d (bool_mat_complement t m) i j hi' hj', hentry t m i j hi hj,
      Bool.not_not]

theorem claim_C10_witness :
    (bool_mat_complement (bool_mat.mk 1 1 fun _ _ => false)
      (bool_mat_complement (bool_mat.mk 1 1 fun _ _ => false)
        (bool_mat.mk 1 1 fun _ _ => true))).entries 0 0
      = (bool_mat.mk 1 1 fun _ _ => true).entries 0 0 :=
  claim_C10.2.2 (bool_mat.mk 1 1 fun _ _ => true)
    (bool_mat.mk 1 1 fun _ _ => false) (bool_mat.mk 1 1 fun _ _ => false)
    rfl rfl 0 0 (by decide) (by decide)

/-- Claim C5: in every truncated infinite-domain case (2, 14, 17, 18, 19,
20) the tail-error bound is added to the radius of the real part of the
truncated-integral enclosure, the midpoint and the imaginary part are left
unchanged, and case 2 then merely doubles the result. -/
theorem claim_C5 (s b : Acb) (goal n prec : Int) :
    (case2_tail s goal).re.mid = s.re.mid
    ∧ (case2_tail s goal).re.rad = s.re.rad + (2 : ℚ) ^ (-goal)
    ∧ (case2_tail s goal).im = s.im
    ∧ (case14_finish s b prec).re.mid = s.re.mid
    ∧ (case14_finish s b prec).re.rad
        = s.re.rad + (|(case14_tailball b prec).re.mid|
            + (case14_tailball b prec).re.rad)
    ∧ (case14_finish s b prec).im = s.im
    ∧ (case17_finish s b prec).re.mid = s.re.mid
    ∧ (case17_finish s b prec).re.rad
        = s.re.rad + (|(case17_tailball b prec).re.mid|
            + (case17_tailball b prec).re.rad)
    ∧ (case17_finish s b prec).im = s.im
    ∧ (case18_finish s b prec).re.mid = s.re.mid
    ∧ (case18_finish s b prec).re.rad
        = s.re.rad + (|(case18_tailball b prec).re.mid|
            + (case18_tailball b prec).re.rad)
    ∧ (case18_finish s b prec).im = s.im
    ∧ (case19_finish s n).re.mid = s.re.mid
    ∧ (case19_finish s n).re.rad
        = s.re.rad + (|(case19_tailball n).re.mid| + (case19_tailball n).re.rad)
    ∧ (case19_finish s n).im = s.im
    ∧ (case20_finish s b n prec).re.mid = s.re.mid
    ∧ (case20_finish s b n prec).re.rad
        = s.re.rad + (|(case20_tailball b n prec).re.mid|
            + (case20_tailball b n prec).re.rad)
    ∧ (case20_finish s b n prec).im = s.im
    ∧ case2_finish s goal = acb_mul_2exp_si (case2_tail s goal) 1 :=
  ⟨rfl, rfl, rfl, rfl, rfl, rfl, rfl, rfl, rfl, rfl, rfl, rfl, rfl, rfl, rfl,
   rfl, rfl, rfl, rfl⟩

lemma selectScan_no_i (l : List String) (st : Int × Int) (h : "-i" ∉ l) :
    selectScan l st = some st := by
  induction l generalizing st with
  | nil => rfl
  | cons a rest ih =>
      have ha : ¬(a = "-i") := by
        rintro rfl
        exact h (List.mem_cons_self _ _)
      simp only [selectScan, if_neg ha]
      exact ih st fun hm => h (List.mem_cons_of_mem a hm)

/-- Claim C6 (amended): when no "-i" flag is present, `main` prints the
usage text together with the full catalogue of 24 integral descriptions
and exits with status 1; an out-of-range index instead aborts (see the
counterexample). -/
theorem claim_C6 (args : List String) (h : "-i" ∉ args.tail) :
    parseSelect args = SelectOutcome.usage descr 1 ∧ descr.length = 24 := by
  constructor
  · unfold parseSelect
    rw [selectScan_no_i args.tail (-1, -1) h]
    norm_num
  · rfl

theorem claim_C6_witness :
    parseSelect ["integrals"] = SelectOutcome.usage descr 1
    ∧ descr.length = 24 :=
  claim_C6 ["integrals"] (by decide)

/-- Claim C6 counterexample: the claim as stated is false — on `-i 24`
(an index outside 0..23) the program calls `flint_abort()` instead of
printing usage and exiting with status 1. -/
theorem claim_C6_counterexample :
    parseSelect ["integrals", "-i", "24"] = SelectOutcome.abort
    ∧ SelectOutcome.abort ≠ SelectOutcome.usage descr 1 := by
  constructor
  · rfl
  · intro hcontra
    exact SelectOutcome.noConfusion hcontra

/-- Claim C3: every example integrand in the catalogue calls
`flint_abort()` exactly when order > 1, and for order ≤ 1 the abort branch
is unreachable and the integrand returns normally with return value 0 (and
the auxiliary parameter untouched). -/
theorem claim_C3 (f : Integrand) (hf : f ∈ integrands) (z : Acb)
    (param order prec : Int) :
    (f z param order prec = none ↔ 1 < order)
    ∧ (order ≤ 1 → ∃ res, f z param order prec = some (res, 0, param)) := by
  simp only [integrands, List.mem_cons, List.mem_singleton,
    List.not_mem_nil, or_false] at hf
  rcases hf with rfl | rfl | rfl | rfl | rfl | rfl | rfl | rfl | rfl | rfl |
    rfl | rfl | rfl | rfl | rfl | rfl | rfl | rfl | rfl | rfl | rfl | rfl | rfl
  all_goals
    refine ⟨?_, fun hle => ?_⟩
    case' _ =>
      by_cases h : 1 < order <;>
        simp [f_sin, f_floor, f_circle, f_atanderiv, f_rump, f_helfgott,
          f_zeta, f_essing2, f_essing, f_factorial1000, f_gamma,
          f_sin_plus_small, f_exp, f_gaussian, f_monster, f_wolfram, f_sech,
          f_sech3, f_log_div1p, f_log_div1p_transformed,
          f_elliptic_p_laurent_n, f_zeta_frac, f_lambertw, h]
    case' _ =>
      have h : ¬ 1 < order := by omega
      simp [f_sin, f_floor, f_circle, f_atanderiv, f_rump, f_helfgott,
        f_zeta, f_essing2, f_essing, f_factorial1000, f_gamma,
        f_sin_plus_small, f_exp, f_gaussian, f_monster, f_wolfram, f_sech,
        f_sech3, f_log_div1p, f_log_div1p_transformed,
        f_elliptic_p_laurent_n, f_zeta_frac, f_lambertw, h]

theorem claim_C3_witness :
    (f_sin acb_zero 0 2 64 = none ↔ 1 < (2 : Int))
    ∧ ((2 : Int) ≤ 1 → ∃ res, f_sin acb_zero 0 2 64 = some (res, 0, 0)) :=
  claim_C3 f_sin (by simp [integrands]) acb_zero 0 2 64

lemma acb_neg_isFinite (z : Acb) : (acb_neg z).isFinite = z.isFinite := by
  simp [acb_neg, arb_neg, Acb.isFinite]

lemma finite_ne_indet {w : Acb} (h : w.isFinite = true) : w ≠ acbIndet := by
  intro he
  rw [he] at h
  simp [acbIndet, Acb.isFinite] at h

lemma abs_locus (z res0 : Acb) (prec : Int) (hz : z.isFinite = true) :
    ((acb_holomorphic_abs res0 z true prec = acbIndet)
        ↔ arb_contains_zero z.re = true)
    ∧ (arb_contains_zero z.re = false →
        (acb_holomorphic_abs res0 z true prec).isFinite = true) := by
  obtain ⟨hzr, hzi⟩ : z.re.finite = true ∧ z.im.finite = true := by
    simpa [Acb.isFinite, Bool.and_eq_true] using hz
  by_cases hc : arb_contains_zero z.re = true
  · constructor
    · simp [acb_holomorphic_abs, hz, hc]
    · intro h
      rw [h] at hc
      cases hc
  · have hcf : arb_contains_zero z.re = false := by
      cases h : arb_contains_zero z.re
      · rfl
      · exact absurd h hc
    have hfin : (acb_holomorphic_abs res0 z true prec).isFinite = true := by
      by_cases h1 : arb_is_nonnegative z.re = true
      · simp [acb_holomorphic_abs, hz, hcf, h1, acb_set_round]
      · by_cases h2 : arb_is_negative z.re = true
        · simp [acb_holomorphic_abs, hz, hcf, h1, h2, acb_neg_round,
            acb_neg_isFinite]
        · exfalso
          simp only [arb_is_nonnegative, hzr, Bool.true_and,
            decide_eq_true_eq, Bool.and_eq_true] at h1
          simp only [arb_is_negative, hzr, Bool.true_and,
            decide_eq_true_eq, Bool.and_eq_true] at h2
          have : arb_contains_zero z.re = true := by
            simp only [arb_contains_zero, hzr, Bool.not_true, Bool.false_or,
              Bool.and_eq_true, decide_eq_true_eq]
            constructor
            · linarith [lt_of_not_le h1]
            · linarith [le_of_not_lt h2]
          exact hc this
    refine ⟨⟨fun he => absurd he (finite_ne_indet hfin), fun hcc => ?_⟩,
      fun _ => hfin⟩
    rw [hcf] at hcc
    cases hcc

lemma floor_locus (z : Acb) (prec : Int) (hz : z.isFinite = true) :
    ((acb_holomorphic_floor z true prec = acbIndet)
        ↔ arb_contains_int z.re = true)
    ∧ (arb_contains_int z.re = false →
        (acb_holomorphic_floor z true prec).isFinite = true) := by
  obtain ⟨hzr, hzi⟩ : z.re.finite = true ∧ z.im.finite = true := by
    simpa [Acb.isFinite, Bool.and_eq_true] using hz
  by_cases hi : arb_contains_int z.re = true
  · constructor
    · simp [acb_holomorphic_floor, hz, hi]
    · intro h
      rw [h] at hi
      cases hi
  · have hif : arb_contains_int z.re = false := by
      cases h : arb_contains_int z.re
      · rfl
      · exact absurd h hi
    have hfin : (acb_holomorphic_floor z true prec).isFinite = true := by
      simp [acb_holomorphic_floor, hz, hif, Acb.isFinite, arb_floor, hzr,
        arb_set_round, hzi]
    refine ⟨⟨fun he => absurd he (finite_ne_indet hfin), fun hcc => ?_⟩,
      fun _ => hfin⟩
    rw [hif] at hcc
    cases hcc

lemma sqrt_locus (z : Acb) (prec : Int) (hz : z.isFinite = true) :
    ((acb_holomorphic_sqrt z true prec = acbIndet)
        ↔ (arb_contains_zero z.im = true ∧ arb_contains_nonpositive z.re = true))
    ∧ ((arb_contains_zero z.im = false ∨ arb_contains_nonpositive z.re = false) →
        (acb_holomorphic_sqrt z true prec).isFinite = true) := by
  obtain ⟨hzr, hzi⟩ : z.re.finite = true ∧ z.im.finite = true := by
    simpa [Acb.isFinite, Bool.and_eq_true] using hz
  by_cases hl : (arb_contains_zero z.im && arb_contains_nonpositive z.re) = true
  · obtain ⟨ha, hb⟩ := Bool.and_eq_true _ _ |>.mp hl
    constructor
    · simp [acb_holomorphic_sqrt, hz, hl, ha, hb]
    · intro h
      rcases h with h | h
      · rw [h] at ha; cases ha
      · rw [h] at hb; cases hb
  · have hlf : (arb_contains_zero z.im && arb_contains_nonpositive z.re) = false := by
      cases h : (arb_contains_zero z.im && arb_contains_nonpositive z.re)
      · rfl
      · exact absurd h hl
    have hfin : (acb_holomorphic_sqrt z true prec).isFinite = true := by
      simp [acb_holomorphic_sqrt, hz, hlf, acb_sqrt, acbFinBall, Acb.isFinite,
        hzr, hzi]
    refine ⟨⟨fun he => absurd he (finite_ne_indet hfin), fun hcc => ?_⟩,
      fun _ => hfin⟩
    rw [hcc.1, hcc.2] at hlf
    cases hlf

/-- Claim C2: for a finite ball probed holomorphically (order > 0), each
helper returns the indeterminate enclosure exactly on its documented
non-analytic locus — abs when the real part contains zero, floor when the
real part contains an integer, sqrt when the imaginary part contains zero
and the real part contains a non-positive number — and otherwise returns
a finite enclosure. -/
theorem claim_C2 (z res0 : Acb) (prec : Int) (hz : z.isFinite = true) :
    ((acb_holomorphic_abs res0 z true prec = acbIndet)
        ↔ arb_contains_zero z.re = true)
    ∧ (arb_contains_zero z.re = false →
        (acb_holomorphic_abs res0 z true prec).isFinite = true)
    ∧ ((acb_holomorphic_floor z true prec = acbIndet)
        ↔ arb_contains_int z.re = true)
    ∧ (arb_contains_int z.re = false →
        (acb_holomorphic_floor z true prec).isFinite = true)
    ∧ ((acb_holomorphic_sqrt z true prec = acbIndet)
        ↔ (arb_contains_zero z.im = true ∧ arb_contains_nonpositive z.re = true))
    ∧ ((arb_contains_zero z.im = false ∨ arb_contains_nonpositive z.re = false) →
        (acb_holomorphic_sqrt z true prec).isFinite = true) :=
  ⟨(abs_locus z res0 prec hz).1, (abs_locus z res0 prec hz).2,
   (floor_locus z prec hz).1, (floor_locus z prec hz).2,
   (sqrt_locus z prec hz).1, (sqrt_locus z prec hz).2⟩

theorem claim_C2_witness :
    ((acb_holomorphic_abs acb_zero ⟨⟨5, 1, true⟩, ⟨5, 1, true⟩⟩ true 64 = acbIndet)
        ↔ arb_contains_zero (Arb.mk 5 1 true) = true)
    ∧ (arb_contains_zero (Arb.mk 5 1 true) = false →
        (acb_holomorphic_abs acb_zero ⟨⟨5, 1, true⟩, ⟨5, 1, true⟩⟩ true 64).isFinite = true)
    ∧ ((acb_holomorphic_floor ⟨⟨5, 1, true⟩, ⟨5, 1, true⟩⟩ true 64 = acbIndet)
        ↔ arb_contains_int (Arb.mk 5 1 true) = true)
    ∧ (arb_contains_int (Arb.mk 5 1 true) = false →
        (acb_holomorphic_floor ⟨⟨5, 1, true⟩, ⟨5, 1, true⟩⟩ true 64).isFinite = true)
    ∧ ((acb_holomorphic_sqrt ⟨⟨5, 1, true⟩, ⟨5, 1, true⟩⟩ true 64 = acbIndet)
        ↔ (arb_contains_zero (Arb.mk 5 1 true) = true
            ∧ arb_contains_nonpositive (Arb.mk 5 1 true) = true))
    ∧ ((arb_contains_zero (Arb.mk 5 1 true) = false
          ∨ arb_contains_nonpositive (Arb.mk 5 1 true) = false) →
        (acb_holomorphic_sqrt ⟨⟨5, 1, true⟩, ⟨5, 1, true⟩⟩ true 64).isFinite = true) :=
  claim_C2 ⟨⟨5, 1, true⟩, ⟨5, 1, true⟩⟩ acb_zero 64 (by decide)

lemma acbFinBall_of_not_finite {z : Acb} (hz : z.isFinite = false) :
    acbFinBall z = acbIndet := by
  simp [acbFinBall, hz]

/-- Claim C7: on a non-finite input ball each holomorphic-extension helper
returns the indeterminate enclosure rather than aborting, and the
integrands composed from them (`f_helfgott`, `f_monster`) find the
intermediate result non-finite, skip the remaining arithmetic and still
return normally (return value 0), so the indeterminate enclosure
propagates conservatively. -/
theorem claim_C7 (z res0 : Acb) (holo : Bool) (param order prec : Int)
    (hz : z.isFinite = false) (ho : order ≤ 1) :
    acb_holomorphic_abs res0 z holo prec = acbIndet
    ∧ acb_holomorphic_floor z holo prec = acbIndet
    ∧ acb_holomorphic_sqrt z holo prec = acbIndet
    ∧ f_helfgott z param order prec = some (acbIndet, 0, param)
    ∧ f_monster z param order prec = some (acbIndet, 0, param)
    ∧ acbIndet.isFinite = false := by
  have hord : ¬ 1 < order := by omega
  have hp : (acb_add_si (acb_mul (acb_add_si (acb_mul (acb_add_si
      (acb_mul (acb_add_si z 10 prec) z prec) 19 prec) z prec)
      (-6) prec) z prec) (-6) prec).isFinite = false := by
    rw [acb_add_si_isFinite, acb_mul_isFinite, acb_add_si_isFinite,
      acb_mul_isFinite, acb_add_si_isFinite, acb_mul_isFinite,
      acb_add_si_isFinite, hz]
    simp
  have hindf : acbIndet.isFinite = false := rfl
  refine ⟨?_, ?_, ?_, ?_, ?_, rfl⟩
  · simp [acb_holomorphic_abs, hz]
  · simp [acb_holomorphic_floor, hz]
  · simp [acb_holomorphic_sqrt, hz]
  · simp only [f_helfgott, if_neg hord]
    simp [acb_holomorphic_abs, hp, hindf]
  · have he : acb_exp z prec = acbIndet := acbFinBall_of_not_finite hz
    simp only [f_monster, if_neg hord]
    simp [he, acb_holomorphic_floor, hindf]

theorem claim_C7_witness :
    acb_holomorphic_abs acb_zero ⟨⟨0, 0, false⟩, ⟨0, 0, true⟩⟩ false 64 = acbIndet
    ∧ acb_holomorphic_floor ⟨⟨0, 0, false⟩, ⟨0, 0, true⟩⟩ false 64 = acbIndet
    ∧ acb_holomorphic_sqrt ⟨⟨0, 0, false⟩, ⟨0, 0, true⟩⟩ false 64 = acbIndet
    ∧ f_helfgott ⟨⟨0, 0, false⟩, ⟨0, 0, true⟩⟩ 0 0 64 = some (acbIndet, 0, 0)
    ∧ f_monster ⟨⟨0, 0, false⟩, ⟨0, 0, true⟩⟩ 0 0 64 = some (acbIndet, 0, 0)
    ∧ acbIndet.isFinite = false :=
  claim_C7 ⟨⟨0, 0, false⟩, ⟨0, 0, true⟩⟩ acb_zero false 0 0 64 (by decide)
    (by decide)

/-- Claim C1 (code bug): with a fresh (zero-initialized) output buffer
distinct from z and the real straddling ball z = (-1 plus-or-minus 2),
`acb_holomorphic_abs` at order 0 negates the stale output buffer instead
of z (`acb_neg(t, res)` in the source), returns hull(z, -0) = z itself,
and the returned enclosure misses |x| = 3 for the point x = -3 of the
region — contradicting the function's own documentation and the claim,
which require hull(z, -z). -/
theorem claim_C1_bug :
    acb_holomorphic_abs acb_zero ⟨⟨-1, 2, true⟩, ⟨0, 0, true⟩⟩ false 64
      = ⟨⟨-1, 2, true⟩, ⟨0, 0, true⟩⟩
    ∧ (Arb.mk (-1) 2 true).memR (-3 : ℝ)
    ∧ |(-3 : ℝ)| = 3
    ∧ ¬ (acb_holomorphic_abs acb_zero ⟨⟨-1, 2, true⟩, ⟨0, 0, true⟩⟩
          false 64).re.memR 3 := by
  have h1 : acb_holomorphic_abs acb_zero ⟨⟨-1, 2, true⟩, ⟨0, 0, true⟩⟩ false 64
      = ⟨⟨-1, 2, true⟩, ⟨0, 0, true⟩⟩ := by
    simp only [acb_holomorphic_abs, Acb.isFinite, arb_is_nonnegative,
      arb_is_negative, arb_contains_zero, acb_set_round, acb_neg_round,
      acb_neg, arb_neg, acb_union, arb_union, acb_zero]
    norm_num [min_def, max_def]
  refine ⟨h1, ?_, ?_, ?_⟩
  · intro _
    push_cast
    constructor <;> norm_num
  · norm_num
  · rw [h1]
    intro hm
    obtain ⟨ha, hb⟩ := hm rfl
    push_cast at hb
    linarith

/-- Claim C9: at order 0 on a purely real ball whose real part contains
zero, `f_essing` returns the fixed enclosure 0 plus-or-minus 1 and
`f_essing2` returns that enclosure multiplied by z; both are finite and
contain sin(1/x) (respectively x sin(1/x)) for every nonzero real x in
the region, instead of evaluating sin(1/z) across the essential
singularity. -/
theorem claim_C9 (z : Acb) (param prec : Int) (x : ℝ)
    (hfin : z.re.finite = true)
    (him : z.im = ⟨0, 0, true⟩)
    (hc : arb_contains_zero z.re = true)
    (hx : (z.re.mid : ℝ) - (z.re.rad : ℝ) ≤ x ∧ x ≤ (z.re.mid : ℝ) + (z.re.rad : ℝ))
    (hx0 : x ≠ 0) :
    f_essing z param 0 prec = some (⟨⟨0, 1, true⟩, ⟨0, 0, true⟩⟩, 0, param)
    ∧ (Arb.mk 0 1 true).memR (Real.sin (1 / x))
    ∧ f_essing2 z param 0 prec
        = some (acb_mul ⟨⟨0, 1, true⟩, ⟨0, 0, true⟩⟩ z prec, 0, param)
    ∧ (acb_mul ⟨⟨0, 1, true⟩, ⟨0, 0, true⟩⟩ z prec).isFinite = true
    ∧ (acb_mul ⟨⟨0, 1, true⟩, ⟨0, 0, true⟩⟩ z prec).re.memR
        (x * Real.sin (1 / x))
    ∧ (acb_mul ⟨⟨0, 1, true⟩, ⟨0, 0, true⟩⟩ z prec).im.memR 0 := by
  have hreal : acb_is_real z = true := by
    simp [acb_is_real, arb_is_zero, him]
  have hxabs : |x| ≤ |(z.re.mid : ℝ)| + (z.re.rad : ℝ) := by
    have hdist : |x - (z.re.mid : ℝ)| ≤ (z.re.rad : ℝ) :=
      abs_le.mpr ⟨by linarith [hx.1], by linarith [hx.2]⟩
    calc |x| = |(z.re.mid : ℝ) + (x - z.re.mid)| := by ring_nf
    _ ≤ |(z.re.mid : ℝ)| + |x - (z.re.mid : ℝ)| := abs_add _ _
    _ ≤ |(z.re.mid : ℝ)| + (z.re.rad : ℝ) := by linarith
  have hsin : |Real.sin (1 / x)| ≤ 1 := Real.abs_sin_le_one _
  have hprod : |x * Real.sin (1 / x)| ≤ |(z.re.mid : ℝ)| + (z.re.rad : ℝ) := by
    rw [abs_mul]
    calc |x| * |Real.sin (1 / x)| ≤ |x| * 1 :=
          mul_le_mul_of_nonneg_left hsin (abs_nonneg x)
    _ = |x| := mul_one _
    _ ≤ _ := hxabs
  refine ⟨?_, ?_, ?_, ?_, ?_, ?_⟩
  · simp [f_essing, hreal, hc]
  · intro _
    constructor
    · push_cast
      linarith [Real.neg_one_le_sin (1 / x)]
    · push_cast
      linarith [Real.sin_le_one (1 / x)]
  · simp [f_essing2, hreal, hc]
  · simp [acb_mul, arb_mul, arb_sub, arb_add, Acb.isFinite, him, hfin]
  · intro _
    simp only [acb_mul, arb_mul, arb_sub, arb_add, him]
    push_cast
    simp only [abs_zero, zero_mul, mul_zero, mul_one, one_mul, zero_add,
      add_zero, zero_sub, sub_zero]
    obtain ⟨hp1, hp2⟩ := abs_le.mp hprod
    constructor <;> linarith
  · intro _
    simp only [acb_mul, arb_mul, arb_sub, arb_add, him]
    push_cast
    norm_num

theorem claim_C9_witness :
    f_essing ⟨⟨0, 1, true⟩, ⟨0, 0, true⟩⟩ 0 0 64
        = some (⟨⟨0, 1, true⟩, ⟨0, 0, true⟩⟩, 0, 0)
    ∧ (Arb.mk 0 1 true).memR (Real.sin (1 / (1 : ℝ)))
    ∧ f_essing2 ⟨⟨0, 1, true⟩, ⟨0, 0, true⟩⟩ 0 0 64
        = some (acb_mul ⟨⟨0, 1, true⟩, ⟨0, 0, true⟩⟩
            ⟨⟨0, 1, true⟩, ⟨0, 0, true⟩⟩ 64, 0, 0)
    ∧ (acb_mul ⟨⟨0, 1, true⟩, ⟨0, 0, true⟩⟩
        ⟨⟨0, 1, true⟩, ⟨0, 0, true⟩⟩ 64).isFinite = true
    ∧ (acb_mul ⟨⟨0, 1, true⟩, ⟨0, 0, true⟩⟩
        ⟨⟨0, 1, true⟩, ⟨0, 0, true⟩⟩ 64).re.memR ((1 : ℝ) * Real.sin (1 / (1 : ℝ)))
    ∧ (acb_mul ⟨⟨0, 1, true⟩, ⟨0, 0, true⟩⟩
        ⟨⟨0, 1, true⟩, ⟨0, 0, true⟩⟩ 64).im.memR 0 :=
  claim_C9 ⟨⟨0, 1, true⟩, ⟨0, 0, true⟩⟩ 0 64 1 rfl rfl
    (by norm_num [arb_contains_zero]) (by push_cast; norm_num) one_ne_zero

lemma f_elliptic_some_shape (z : Acb) (p o pr : Int) (r : Acb × Int × Int)
    (h : f_elliptic_p_laurent_n z p o pr = some r) :
    r.2.2 = p ∧ r.2.1 = 0 ∧
      r.1 = acb_mul (acb_modular_elliptic_p z acb_onei pr)
              (acb_pow_si z (-p - 1) pr) pr := by
  by_cases ho : 1 < o
  · simp [f_elliptic_p_laurent_n, ho] at h
  · simp only [f_elliptic_p_laurent_n, if_neg ho] at h
    obtain rfl := (Option.some.inj h).symm
    exact ⟨rfl, rfl, rfl⟩

/-- Claim C8: `f_elliptic_p_laurent_n` only reads the opaque parameter
(interpreting it as the index n), never writes it, and returns the
enclosure of wp(z; tau=i) multiplied by z^(-n-1); consequently the driver
of integral 21, which threads the same parameter value 10 through every
probe of all four edge integrations, still finds 10 afterwards. -/
theorem claim_C8 :
    (∀ (z : Acb) (p o pr : Int) (r : Acb × Int × Int),
        f_elliptic_p_laurent_n z p o pr = some r →
          r.2.2 = p ∧ r.2.1 = 0 ∧
            r.1 = acb_mul (acb_modular_elliptic_p z acb_onei pr)
                    (acb_pow_si z (-p - 1) pr) pr)
    ∧ ∀ probes : List (Acb × Int × Int), case21_paramAfter probes = 10 := by
  refine ⟨fun z p o pr r h => f_elliptic_some_shape z p o pr r h, ?_⟩
  have hstep : ∀ probe : Acb × Int × Int, case21_probe 10 probe = 10 := by
    intro probe
    unfold case21_probe
    cases hfe : f_elliptic_p_laurent_n probe.1 10 probe.2.1 probe.2.2 with
    | none => rfl
    | some r => exact (f_elliptic_some_shape _ _ _ _ r hfe).1
  intro probes
  unfold case21_paramAfter
  induction probes with
  | nil => rfl
  | cons a l ih =>
      rw [List.foldl_cons, hstep a]
      exact ih

theorem claim_C8_witness :
    case21_paramAfter [(acb_one, 0, 64)] = 10
    ∧ ((acb_mul (acb_modular_elliptic_p acb_one acb_onei 64)
          (acb_pow_si acb_one (-10 - 1) 64) 64, (0 : Int), (10 : Int)) :
          Acb × Int × Int).2.2 = 10 :=
  ⟨claim_C8.2 [(acb_one, 0, 64)],
   (claim_C8.1 acb_one 10 0 64
      (acb_mul (acb_modular_elliptic_p acb_one acb_onei 64)
        (acb_pow_si acb_one (-10 - 1) 64) 64, (0 : Int), (10 : Int))
      (by norm_num [f_elliptic_p_laurent_n])).1⟩

/-- Claim C4: the closed-contour computation of integral 7 assembles the
four oriented edge enclosures by summation, division by pi, halving and
division by i (in total, division by 2 pi i); whenever the edge
enclosures contain the true oriented edge integrals of zeta around the
rectangle — whose sum, by the residue theorem at s = 1, is 2 pi i — the
resulting enclosure contains 1. -/
theorem claim_C4 (i1 i2 i3 i4 : Acb) (v1 v2 v3 v4 : ℂ) (prec : Int)
    (h1 : i1.containsC v1) (h2 : i2.containsC v2) (h3 : i3.containsC v3)
    (h4 : i4.containsC v4)
    (hsum : v1 + v2 + v3 + v4 = 2 * (Real.pi : ℂ) * Complex.I) :
    (case7_assemble i1 i2 i3 i4 prec).containsC 1 := by
  have hs : (acb_add (acb_add (acb_add (acb_add acb_zero i1 prec) i2 prec)
      i3 prec) i4 prec).containsC (0 + v1 + v2 + v3 + v4) :=
    acb_add_containsC (acb_add_containsC (acb_add_containsC
      (acb_add_containsC acb_zero_containsC h1 prec) h2 prec) h3 prec) h4 prec
  have hpi : (acb_const_pi prec).re.memR Real.pi := pi_mem_const_pi prec
  have hdiv := acb_div_real_containsC hs (by rfl) hpi (by rfl)
    (by norm_num [acb_const_pi]) prec
  have hhalf := acb_mul_2exp_containsC hdiv (-1)
  have hone := acb_div_onei_containsC hhalf
  have hval : (0 + v1 + v2 + v3 + v4) / ((Real.pi : ℝ) : ℂ) * (2 : ℂ) ^ (-1 : ℤ)
      / Complex.I = 1 := by
    rw [zero_add, hsum]
    have hπ : ((Real.pi : ℝ) : ℂ) ≠ 0 := Complex.ofReal_ne_zero.mpr Real.pi_ne_zero
    rw [zpow_neg, zpow_one]
    field_simp
    ring_nf
  rw [show (1 : ℂ) = (0 + v1 + v2 + v3 + v4) / ((Real.pi : ℝ) : ℂ)
      * (2 : ℂ) ^ (-1 : ℤ) / Complex.I from hval.symm]
  exact hone

theorem claim_C4_witness :
    (case7_assemble ⟨⟨0, 0, true⟩, ⟨6283185/1000000, 1/1000000, true⟩⟩
      acb_zero acb_zero acb_zero 64).containsC 1 :=
  claim_C4 ⟨⟨0, 0, true⟩, ⟨6283185/1000000, 1/1000000, true⟩⟩
    acb_zero acb_zero acb_zero
    (2 * (Real.pi : ℂ) * Complex.I) 0 0 0 64
    (by
      refine ⟨?_, ?_⟩
      · have h0 : (2 * (Real.pi : ℂ) * Complex.I).re = 0 := by
          simp [Complex.mul_re, Complex.mul_im]
        rw [h0]
        intro _
        norm_num
      · have h2 : (2 * (Real.pi : ℂ) * Complex.I).im = 2 * Real.pi := by
          simp [Complex.mul_im, Complex.mul_re]
        rw [h2]
        intro _
        push_cast
        constructor
        · nlinarith [Real.pi_gt_d6]
        · nlinarith [Real.pi_lt_d6])
    acb_zero_containsC acb_zero_containsC acb_zero_containsC
    (by ring)
